import Mathlib

/-!
Shallow embedding of the `ai_npc` directive subsystem:
`ai_npc/core/llm_controller.py` (response parsing, mock directive generator,
request-queue worker) and `ai_npc/core/npc.py` (agent update state machine,
task dispatch, steering).  Python strings are modelled as `String`/`List Char`,
dictionary lookups of optional keys as `Option` fields, float arithmetic as
real arithmetic, and the thread/queue machinery as explicit transition
systems processed one item at a time.
-/

namespace AiNpc

/-- The whitespace characters recognised by Python's `str.strip()` /
`str.split()` and by the regex class `\s` (ASCII subset; the repository only
manipulates ASCII task strings). -/
def isPySpace (c : Char) : Bool :=
  c = ' ' || c = '\t' || c = '\n' || c = '\r' || c = '\x0b' || c = '\x0c'

/-- Python `str.strip()` on a character list: drop leading and trailing
whitespace. -/
def pyStripChars (s : List Char) : List Char :=
  ((s.dropWhile isPySpace).reverse.dropWhile isPySpace).reverse

/-! ## Text-extraction regex of `_get_openai_response`

`llm_controller.py` line 303 runs `re.search(r'task["\s:]+([^"]+?)["\s}]',
content)`.  The pattern is embedded as a backtracking matcher: literal
`task`, then one-or-more characters of the class `["\s:]` (greedy, with
backtracking), then a lazy capture `([^"]+?)` terminated by one character of
the class `["\s}]`.  `re.search` returns the match at the leftmost feasible
start position. -/

/-- Regex character class `["\s:]` (separator between `task` and its value). -/
def isSepChar (c : Char) : Bool :=
  c = '\x22' || isPySpace c || c = ':'

/-- Regex character class `["\s}]` (terminator of the lazy capture). -/
def isEndChar (c : Char) : Bool :=
  c = '\x22' || isPySpace c || c = '\x7d'

/-- Lazy part `([^"]+?)["\s}]` with a non-empty accumulator: the capture
grows one character at a time and stops at the first terminator.  A
character that is not a terminator is in particular not a quote, so it may
extend the capture. -/
def lazyCapture (acc : List Char) : List Char → Option (List Char)
  | [] => none
  | d :: rest => if isEndChar d then some acc else lazyCapture (acc ++ [d]) rest

/-- Start the capture `([^"]+?)`: it needs at least one non-quote character. -/
def tryCapture : List Char → Option (List Char)
  | [] => none
  | c :: rest => if c = '\x22' then none else lazyCapture [c] rest

/-- Greedy `["\s:]+` continuation with backtracking, having already consumed
at least one separator character: prefer consuming one more separator
character; if everything after that fails, start the capture here instead. -/
def afterSep : List Char → Option (List Char)
  | [] => none
  | c :: rest =>
    if isSepChar c then
      match afterSep rest with
      | some cap => some cap
      | none => tryCapture (c :: rest)
    else tryCapture (c :: rest)

/-- Try the whole pattern anchored at the head of `s`. -/
def matchTaskAt (s : List Char) : Option (List Char) :=
  if ['t', 'a', 's', 'k'].isPrefixOf s then
    match s.drop 4 with
    | [] => none
    | c :: rest => if isSepChar c then afterSep rest else none
  else none

/-- `re.search`: the leftmost start position at which the pattern matches
wins, and its capture group is returned. -/
def searchTask : List Char → Option (List Char)
  | [] => none
  | c :: rest =>
    match matchTaskAt (c :: rest) with
    | some cap => some cap
    | none => searchTask rest

/-- Lines 299–308 of `_get_openai_response`: when the tool-call parse has
failed, a truthy message content is run through the regex and the capture is
stripped (`task_match.group(1).strip()`); in every other case the literal
`"idle"` is returned.  `none` models a `None` content, `some ""` the falsy
empty string. -/
def extractFromContent : Option String → String
  | none => "idle"
  | some c =>
    if c = "" then "idle"
    else
      match searchTask c.data with
      | some cap => ⟨pyStripChars cap⟩
      | none => "idle"

/-! ## Tool-call path of `_get_openai_response` (lines 273–308) -/

/-- Python `task.replace('_', ' ')`: a single-character replacement is a
character map. -/
def underscoreToSpace (s : String) : String :=
  ⟨s.data.map fun c => if c = '_' then ' ' else c⟩

/-- Outcome of parsing the backend reply, after JSON decoding and attribute
access: either a structured tool call carrying the decoded `task` /
`task_description` arguments (absent keys are `none`), or the
`except`-branch with the raw message content. -/
inductive ParsedResponse where
  | toolCall (fname : String) (task? : Option String) (desc? : Option String)
  | parseError (content : Option String)

/-- Lines 276–308: the tool-call branch checks the function name, reads
`task` with default `"idle"` and `task_description` with default `""`, and
formats `"<task with underscores replaced by spaces>: <description>"` when
the description is truthy; an unexpected function name yields `"idle"`, and
the `except`-branch falls back to text extraction. -/
def responseToTask : ParsedResponse → String
  | .toolCall fname task? desc? =>
    if fname = "assign_task_to_npc" then
      let task := task?.getD "idle"
      let description := desc?.getD ""
      if description ≠ "" then underscoreToSpace task ++ ": " ++ description
      else underscoreToSpace task
    else "idle"
  | .parseError content => extractFromContent content

/-! ## Mock directive generator (`_get_mock_response`, lines 310–373) -/

/-- `available_tasks["common"]`. -/
def commonTasks : List String :=
  ["patrol", "follow player", "guard position", "wander", "idle", "greet nearby"]

/-- `available_tasks["villager"]`. -/
def villagerTasks : List String := ["tend crops", "rest at home", "talk to others"]

/-- `available_tasks["guard"]`. -/
def guardTasks : List String := ["inspect surroundings"]

/-- `available_tasks["merchant"]`. -/
def merchantTasks : List String := ["sell wares", "manage inventory"]

/-- `interactive_tasks` (line 351). -/
def interactiveTasks : List String := ["follow player", "greet nearby"]

/-- `if npc_type in available_tasks: task_options.extend(available_tasks[npc_type])`:
the dictionary has the four keys below (including `"common"` itself); an
unrecognised type extends with nothing. -/
def extTasks (nt : String) : List String :=
  if nt = "common" then commonTasks
  else if nt = "villager" then villagerTasks
  else if nt = "guard" then guardTasks
  else if nt = "merchant" then merchantTasks
  else []

/-- The query dictionary as read by `_get_mock_response` via `query.get`:
absent keys are `none`. -/
structure MockQuery where
  npcType : Option String
  currentTask : Option String
  playerInteraction : Option String
deriving DecidableEq

/-- Lines 340–354: candidate pool construction — common tasks, plus the
type-specific extension (`npc_type` defaulting to `"villager"`), plus three
extra copies of the interactive tasks when the player-interaction tag is
`"player nearby"` or `"player very close"`. -/
def mockCandidates (q : MockQuery) : List String :=
  let nt := q.npcType.getD "villager"
  let base := commonTasks ++ extTasks nt
  if q.playerInteraction = some "player nearby" ∨
      q.playerInteraction = some "player very close" then
    base ++ (interactiveTasks ++ (interactiveTasks ++ interactiveTasks))
  else base

/-- Python `t.startswith(base)`. -/
def pyStartsWith (t base : String) : Bool := base.data.isPrefixOf t.data

/-- First whitespace-delimited token of `str.split()` (which drops empty
fields); `none` models the `IndexError` of `split()[0]` on an all-whitespace
string. -/
def pySplitFirst : List Char → Option (List Char)
  | [] => none
  | c :: rest =>
    if isPySpace c then pySplitFirst rest
    else some (c :: rest.takeWhile (fun d => !isPySpace d))

/-- Line 363: `current_task.split()[0] if " " in current_task else current_task`. -/
def currentBaseTask (c : String) : Option String :=
  if ' ' ∈ c.data then (pySplitFirst c.data).map (⟨·⟩)
  else some c

/-- Lines 356–368: the anti-repetition step.  When the current task is a
member of the pool and more than one candidate remains, the first exact
occurrence is removed (`list.remove`) and every candidate starting with the
current task's base token is filtered out; an emptied pool is reset to the
common tasks.  `none` models the `IndexError` raised by `split()[0]`. -/
def mockFinalPool (q : MockQuery) : Option (List String) :=
  let pool := mockCandidates q
  match q.currentTask with
  | none => some pool
  | some c =>
    if c ∈ pool ∧ 1 < pool.length then
      match currentBaseTask c with
      | none => none
      | some base =>
        let pool2 := (pool.erase c).filter fun t => !pyStartsWith t base
        some (if pool2 = [] then commonTasks else pool2)
    else some pool

/-! ## Request queue and background worker
(`queue_npc_task_request` / `_process_queue`, lines 103–164).

The FIFO queue is a list whose `put` appends at the tail and whose single
worker repeatedly takes the head.  The backend call of one dequeued item is
modelled by an `Except` outcome supplied with the item, and the fallback
generator by a function argument `mockFn` standing for `_get_mock_response`
with its RNG resolved. -/

/-- An entry of `request_queue`: `(npc_id, query, callback)`; `hasCallback`
records whether a callback was provided. -/
structure PendingRequest where
  npcId : String
  query : MockQuery
  hasCallback : Bool
deriving DecidableEq

/-- Observable actions of the worker, in the order it performs them. -/
inductive Event where
  | cacheWrite (npcId task : String)
  | callbackCall (npcId task : String)
deriving DecidableEq

/-- Lines 112–131: process one dequeued request.  The response is the
backend result on success and the mock fallback on any failure; it is
stored in `response_cache[npc_id]` (dictionary overwrite, modelled by
prepending to an association list read front-first) and then the callback,
if provided, is invoked with the same response. -/
def workerStep (mockFn : MockQuery → String) (cache : List (String × String))
    (req : PendingRequest) (outcome : Except String String) :
    List (String × String) × List Event :=
  let response :=
    match outcome with
    | .ok r => r
    | .error _ => mockFn req.query
  ((req.npcId, response) :: cache,
    Event.cacheWrite req.npcId response ::
      (if req.hasCallback then [Event.callbackCall req.npcId response] else []))

/-- The single worker draining the queue front-first, one item at a time,
concatenating the events of each step in order. -/
def drainQueue (mockFn : MockQuery → String) :
    List (String × String) → List (PendingRequest × Except String String) →
    List (String × String) × List Event
  | cache, [] => (cache, [])
  | cache, (req, out) :: rest =>
    let step := workerStep mockFn cache req out
    let restRes := drainQueue mockFn step.1 rest
    (restRes.1, step.2 ++ restRes.2)

/-- `queue.Queue.put`: FIFO submission appends at the tail. -/
def queuePut (q : List (PendingRequest × Except String String))
    (item : PendingRequest × Except String String) :
    List (PendingRequest × Except String String) :=
  q ++ [item]

/-- The npc ids of the callback invocations among a worker event trace, in
order. -/
def callbackOrder (evs : List Event) : List String :=
  evs.filterMap fun e =>
    match e with
    | .callbackCall id _ => some id
    | .cacheWrite _ _ => none

/-! ## Agent update state machine (`NPC.update`, lines 44–66)

One agent together with the parts of the controller it touches: its own
cache slot and the number of its requests the worker has not yet completed.
A `tick` runs `NPC.update`; a `worker` step completes one in-flight request
by writing the cache slot. -/

/-- `NPC_UPDATE_INTERVAL` from `settings.py` (milliseconds). -/
def NPC_UPDATE_INTERVAL : Nat := 10000

/-- The agent-side fields read and written by `NPC.update`:
`waiting_for_task`, `current_task`, `last_llm_update`. -/
structure AgentState where
  waiting : Bool
  currentTask : String
  lastUpdate : Nat
deriving DecidableEq

/-- `NPC.update` lines 48–63 (behaviour execution aside): given the agent's
cache slot and the current time, return the new agent state, the new cache
slot, and whether a request was submitted.  A cached response is consumed
only while `waiting_for_task` is set (it carries `new_task`, which becomes
the current task; the cache entry and the flag are cleared and the
timestamp recorded); otherwise, when not waiting and the update interval
has elapsed, a request is submitted and the flag set. -/
def npcUpdate (a : AgentState) (cache : Option String) (now : Nat) :
    AgentState × Option String × Bool :=
  match cache, a.waiting with
  | some r, true => (⟨false, r, now⟩, none, false)
  | _, _ =>
    if a.waiting = false ∧ NPC_UPDATE_INTERVAL ≤ now - a.lastUpdate then
      (⟨true, a.currentTask, a.lastUpdate⟩, cache, true)
    else (a, cache, false)

/-- One agent plus its slice of the controller state. -/
structure SysState where
  agent : AgentState
  inflight : Nat
  cache : Option String
deriving DecidableEq

/-- A simulation tick applied to the system: run `NPC.update`; a submission
enqueues one more in-flight request. -/
def applyTick (s : SysState) (now : Nat) : SysState :=
  let u := npcUpdate s.agent s.cache now
  ⟨u.1, s.inflight + (if u.2.2 then 1 else 0), u.2.1⟩

/-- Interleaving of simulation ticks and the background worker, which
completes one in-flight request at a time by writing the cache slot. -/
inductive SysStep : SysState → SysState → Prop where
  | tick (s : SysState) (now : Nat) : SysStep s (applyTick s now)
  | worker (s : SysState) (r : String) (h : 0 < s.inflight) :
      SysStep s ⟨s.agent, s.inflight - 1, some r⟩

/-- The freshly constructed agent (`NPC.__init__`): `current_task = "idle"`,
not waiting, no request queued, empty cache slot. -/
def initSys : SysState := ⟨⟨false, "idle", 0⟩, 0, none⟩

/-- States reachable from the initial state by ticks and worker steps. -/
inductive Reaches : SysState → Prop where
  | init : Reaches initSys
  | step {s s' : SysState} : Reaches s → SysStep s s' → Reaches s'

/-- Outstanding directives of the agent: requests still being processed plus
an uncollected cache entry. -/
def outstanding (s : SysState) : Nat :=
  s.inflight + (if s.cache.isSome then 1 else 0)

/-! ## Task interpretation (`NPC.execute_task`, lines 121–199) -/

/-- The executable behaviours an interpreted directive resolves to. -/
inductive Behavior where
  | patrol | followPlayer | guardPosition | wander
  | tendCrops | restAtHome | talkToOthers
  | inspectSurroundings | sellWares | manageInventory
  | greetNearby | idle
deriving DecidableEq

/-- Python substring containment `sub in hay`. -/
def pyContains (hay sub : String) : Bool := go sub.data hay.data
where
  go (sub : List Char) : List Char → Bool
    | [] => sub.isEmpty
    | c :: rest => sub.isPrefixOf (c :: rest) || go sub rest

/-- `any(word in task_lower for word in words)`. -/
def keywordAny (words : List String) (t : String) : Bool :=
  words.any fun w => pyContains t w

/-- Python `str.lower()` (ASCII). -/
def pyLower (s : String) : String := ⟨s.data.map Char.toLower⟩

/-- `NPC.execute_task`: lower-case the task, strip an optional
`"label: description"` suffix at the first colon, then match — exact
function-style identifiers first, then keyword patterns, consulting the
agent's type for type-specific verbs; `idle`/`wait` keep still and anything
unrecognised wanders. -/
def executeTask (npcType task : String) : Behavior :=
  let tl0 := pyLower task
  let tl :=
    if pyContains tl0 ":" then pyStripChars (tl0.data.takeWhile (· ≠ ':')) |> String.mk
    else tl0
  if pyContains tl "follow_player" then .followPlayer
  else if pyContains tl "guard_position" then .guardPosition
  else if pyContains tl "tend_crops" then .tendCrops
  else if pyContains tl "rest_at_home" then .restAtHome
  else if pyContains tl "talk_to_others" then .talkToOthers
  else if pyContains tl "inspect_surroundings" then .inspectSurroundings
  else if pyContains tl "sell_wares" then .sellWares
  else if pyContains tl "manage_inventory" then .manageInventory
  else if pyContains tl "greet_nearby" then .greetNearby
  else if pyContains tl "patrol" then .patrol
  else if keywordAny ["follow", "approach", "chase"] tl && pyContains tl "player" then
    .followPlayer
  else if keywordAny ["guard", "protect", "watch", "stand"] tl then .guardPosition
  else if keywordAny ["wander", "explore", "roam", "walk"] tl then .wander
  else if npcType = "villager" && keywordAny ["farm", "crops", "tend", "harvest"] tl then
    .tendCrops
  else if npcType = "villager" && keywordAny ["rest", "sleep", "home"] tl then .restAtHome
  else if npcType = "villager" && keywordAny ["talk", "chat", "gossip"] tl then .talkToOthers
  else if npcType = "guard" && keywordAny ["inspect", "investigate"] tl then
    .inspectSurroundings
  else if npcType = "merchant" && keywordAny ["sell", "trade", "market"] tl then .sellWares
  else if npcType = "merchant" && keywordAny ["restock", "inventory", "goods", "arrange"] tl then
    .manageInventory
  else if keywordAny ["greet", "wave", "welcome"] tl then .greetNearby
  else if pyContains tl "idle" || pyContains tl "wait" then .idle
  else .wander

/-! ## Steering primitives (`NPC.move_toward_target` / `NPC.has_reached_target`,
lines 342–376).  Python float arithmetic is modelled over the reals;
`(dx**2 + dy**2)**0.5` is the real square root of a non-negative number. -/

/-- `NPC_SPEED` from `settings.py`. -/
noncomputable def npcSpeed : ℝ := 3

/-- The steering fields of an agent: position and the two optional target
coordinates. -/
structure Steer where
  x : ℝ
  y : ℝ
  targetX : Option ℝ
  targetY : Option ℝ

/-- Lines 365–376: reached when the Euclidean distance to the target is
strictly below the speed; a missing target coordinate counts as reached. -/
def hasReachedTarget (s : Steer) : Prop :=
  match s.targetX, s.targetY with
  | some tx, some ty => Real.sqrt ((tx - s.x) ^ 2 + (ty - s.y) ^ 2) < npcSpeed
  | _, _ => True

open Classical in
/-- Lines 342–363: return unchanged when a target coordinate is missing;
otherwise step by the direction vector, normalised and scaled by the speed
only when the distance is positive. -/
noncomputable def moveTowardTarget (s : Steer) : Steer :=
  match s.targetX, s.targetY with
  | some tx, some ty =>
    let dx := tx - s.x
    let dy := ty - s.y
    let distance := Real.sqrt (dx ^ 2 + dy ^ 2)
    let dx' := if 0 < distance then dx / distance * npcSpeed else dx
    let dy' := if 0 < distance then dy / distance * npcSpeed else dy
    { s with x := s.x + dx', y := s.y + dy' }
  | _, _ => s

/-- Every task string occurring in `available_tasks`. -/
def allTasks : List String :=
  commonTasks ++ (villagerTasks ++ (guardTasks ++ merchantTasks))

/-! ## Helper lemmas -/

lemma strDataAppend (a b : String) : (a ++ b).data = a.data ++ b.data := by
  cases a
  cases b
  rfl

lemma strEqEmptyIff (s : String) : s = "" ↔ s.data = [] := by
  cases s with
  | mk l =>
    constructor
    · intro h
      rw [h]
    · intro h
      simp only at h
      rw [h]

lemma mem_allTasks_of_common : ∀ t ∈ commonTasks, t ∈ allTasks := by decide

lemma mem_allTasks_of_ext (nt : String) : ∀ t ∈ extTasks nt, t ∈ allTasks := by
  unfold extTasks
  split_ifs <;> decide

lemma mem_allTasks_of_interactive : ∀ t ∈ interactiveTasks, t ∈ allTasks := by decide

lemma allTasks_ne_empty : ∀ t ∈ allTasks, t ≠ "" := by decide

lemma mem_allTasks_of_candidates {q : MockQuery} {t : String}
    (ht : t ∈ mockCandidates q) : t ∈ allTasks := by
  simp only [mockCandidates] at ht
  split at ht
  · rcases List.mem_append.mp ht with h | h
    · rcases List.mem_append.mp h with h | h
      · exact mem_allTasks_of_common t h
      · exact mem_allTasks_of_ext _ t h
    · rcases List.mem_append.mp h with h | h
      · exact mem_allTasks_of_interactive t h
      · rcases List.mem_append.mp h with h | h
        · exact mem_allTasks_of_interactive t h
        · exact mem_allTasks_of_interactive t h
  · rcases List.mem_append.mp ht with h | h
    · exact mem_allTasks_of_common t h
    · exact mem_allTasks_of_ext _ t h

lemma common_mem_candidates {q : MockQuery} {t : String} (h : t ∈ commonTasks) :
    t ∈ mockCandidates q := by
  simp only [mockCandidates]
  split
  · exact List.mem_append_left _ (List.mem_append_left _ h)
  · exact List.mem_append_left _ h

lemma mem_allTasks_of_final {q : MockQuery} {pool : List String} {t : String}
    (hp : mockFinalPool q = some pool) (ht : t ∈ pool) : t ∈ allTasks := by
  simp only [mockFinalPool] at hp
  split at hp
  · injection hp with hp
    subst hp
    exact mem_allTasks_of_candidates ht
  · split at hp
    · split at hp
      · cases hp
      · injection hp with hp
        subst hp
        split at ht
        · exact mem_allTasks_of_common t ht
        · have h1 := List.mem_of_mem_filter ht
          exact mem_allTasks_of_candidates (List.mem_of_mem_erase h1)
    · injection hp with hp
      subst hp
      exact mem_allTasks_of_candidates ht

lemma mock_branch_spec (q : MockQuery) (c : String) (hc : q.currentTask = some c)
    (hmem : c ∈ mockCandidates q) (hlen : 1 < (mockCandidates q).length)
    (base : String) (hbase : currentBaseTask c = some base)
    (hcb : pyStartsWith c base = true)
    (w : String) (hw : w ∈ mockCandidates q) (hwc : w ≠ c)
    (hwb : pyStartsWith w base = false) :
    ∃ pool, mockFinalPool q = some pool ∧ pool ≠ [] ∧
      ∀ t ∈ pool, t ≠ "" ∧ t ≠ c := by
  have hw2 : w ∈ ((mockCandidates q).erase c).filter (fun t => !pyStartsWith t base) := by
    refine List.mem_filter.mpr ⟨?_, ?_⟩
    · exact (List.mem_erase_of_ne hwc).mpr hw
    · simp [hwb]
  have hne : ((mockCandidates q).erase c).filter (fun t => !pyStartsWith t base) ≠ [] :=
    List.ne_nil_of_mem hw2
  refine ⟨_, ?_, hne, ?_⟩
  · simp only [mockFinalPool, hc]
    rw [if_pos ⟨hmem, hlen⟩]
    simp only [hbase]
    rw [if_neg hne]
  · intro t ht
    have ht1 := List.mem_of_mem_filter ht
    have ht2 := List.mem_of_mem_erase ht1
    refine ⟨allTasks_ne_empty t (mem_allTasks_of_candidates ht2), ?_⟩
    intro hEq
    have hfilt := List.of_mem_filter ht
    rw [hEq, hcb] at hfilt
    simp at hfilt

lemma callbackOrder_append (a b : List Event) :
    callbackOrder (a ++ b) = callbackOrder a ++ callbackOrder b := by
  simp [callbackOrder, List.filterMap_append]

/-! ## Claim theorems -/

/-- C1: the text-extraction chain of `_get_openai_response` is a total
function of the raw message content (by construction of the embedding, it
is deterministic and never raises): valid JSON with a `new_task` field
yields `"patrol"`, the same JSON wrapped in code fences yields the same
result, malformed text containing `new_task: "wander"` yields `"wander"`,
and content with no recognizable pattern (or falsy content) yields the
literal `"idle"`. -/
theorem parser_chain_cases :
    extractFromContent (some "\x7b\"new_task\":\"patrol\"\x7d") = "patrol" ∧
    extractFromContent (some "```json\n\x7b\"new_task\": \"patrol\"\x7d\n```") = "patrol" ∧
    extractFromContent (some "I suggest new_task: \"wander\" here") = "wander" ∧
    extractFromContent (some "no recognizable directive here") = "idle" ∧
    extractFromContent none = "idle" ∧
    extractFromContent (some "") = "idle" := by
  refine ⟨?_, ?_, ?_, ?_, rfl, rfl⟩ <;> rfl

/-- C2 counterexample: a structured tool call whose `task` argument is the
empty string (with no description) produces an empty directive string, so
not every DirectiveResult-producing path yields a non-empty task. -/
theorem directive_task_empty_cex :
    responseToTask (.toolCall "assign_task_to_npc" (some "") none) = "" := rfl

/-- C2 (amended): no DirectiveResult-producing path raises (each is a total
function here); the mock-generator path always yields a non-empty task; the
tool-call path yields a non-empty task whenever the backend's `task`
argument is absent or non-empty, or a non-empty description is given; and
the text-extraction fallback can only be empty when the regex capture
strips to the empty string. -/
theorem directive_task_amended :
    (∀ (q : MockQuery) (pool : List String), mockFinalPool q = some pool →
        ∀ t ∈ pool, t ≠ "") ∧
    (∀ (fname : String) (task? desc? : Option String),
        task?.getD "idle" ≠ "" ∨ desc?.getD "" ≠ "" →
        responseToTask (.toolCall fname task? desc?) ≠ "") ∧
    (∀ c? : Option String, extractFromContent c? = "" →
        ∃ c cap, c? = some c ∧ searchTask c.data = some cap ∧ pyStripChars cap = []) := by
  refine ⟨?_, ?_, ?_⟩
  · intro q pool hp t ht
    exact allTasks_ne_empty t (mem_allTasks_of_final hp ht)
  · intro fname task? desc? hne h
    simp only [responseToTask] at h
    by_cases hf : fname = "assign_task_to_npc"
    · rw [if_pos hf] at h
      by_cases hd : desc?.getD "" ≠ ""
      · rw [if_pos hd] at h
        have := congrArg String.data h
        rw [strDataAppend, strDataAppend] at this
        simp at this
      · rw [if_neg hd] at h
        push_neg at hd
        have hdata := congrArg String.data h
        simp only [underscoreToSpace] at hdata
        have htask : task?.getD "idle" = "" := by
          rw [strEqEmptyIff]
          have : (task?.getD "idle").data.map (fun c => if c = '_' then ' ' else c) = [] := hdata
          exact List.map_eq_nil_iff.mp this
        rcases hne with hne | hne
        · exact hne htask
        · exact hne hd
    · rw [if_neg hf] at h
      exact absurd h (by decide)
  · intro c? h
    cases c? with
    | none => exact absurd h (by decide)
    | some c =>
      simp only [extractFromContent] at h
      by_cases hc : c = ""
      · rw [if_pos hc] at h
        exact absurd h (by decide)
      · rw [if_neg hc] at h
        cases hs : searchTask c.data with
        | none =>
          rw [hs] at h
          exact absurd h (by decide)
        | some cap =>
          rw [hs] at h
          refine ⟨c, cap, rfl, hs, ?_⟩
          rw [strEqEmptyIff] at h
          exact h

/-- C2 amended witness: the tool-call path with the enumerated task
`"patrol"` and no description yields a non-empty task. -/
theorem directive_task_amended_witness :
    responseToTask (.toolCall "assign_task_to_npc" (some "patrol") none) ≠ "" :=
  directive_task_amended.2.1 "assign_task_to_npc" (some "patrol") none (Or.inl (by decide))

/-- C6: whenever at least two candidates remain after pool construction,
the mock generator's final pool (reset to the universal task set if the
anti-repetition removal emptied it, which is part of `mockFinalPool`) is
non-empty, contains no empty string, and never contains the exact current
task — so the uniformly selected result is non-empty and differs from the
current task. -/
theorem mock_no_repeat (q : MockQuery) (hq : 2 ≤ (mockCandidates q).length) :
    ∃ pool, mockFinalPool q = some pool ∧ pool ≠ [] ∧
      ∀ t ∈ pool, t ≠ "" ∧ q.currentTask ≠ some t := by
  have hlen : 1 < (mockCandidates q).length := by omega
  cases hcur : q.currentTask with
  | none =>
    refine ⟨mockCandidates q, by simp [mockFinalPool, hcur], ?_, ?_⟩
    · exact List.ne_nil_of_length_pos (by omega)
    · intro t ht
      exact ⟨allTasks_ne_empty t (mem_allTasks_of_candidates ht), by simp [hcur]⟩
  | some c =>
    by_cases hmem : c ∈ mockCandidates q
    · have hcall : c ∈ ["patrol", "follow player", "guard position", "wander", "idle",
          "greet nearby", "tend crops", "rest at home", "talk to others",
          "inspect surroundings", "sell wares", "manage inventory"] := by
        have := mem_allTasks_of_candidates hmem
        simpa [allTasks, commonTasks, villagerTasks, guardTasks, merchantTasks] using this
      have key : ∃ pool, mockFinalPool q = some pool ∧ pool ≠ [] ∧
          ∀ t ∈ pool, t ≠ "" ∧ t ≠ c := by
        fin_cases hcall
        · exact mock_branch_spec q _ hcur hmem hlen "patrol" (by decide) (by decide)
            "wander" (common_mem_candidates (by decide)) (by decide) (by decide)
        · exact mock_branch_spec q _ hcur hmem hlen "follow" (by decide) (by decide)
            "patrol" (common_mem_candidates (by decide)) (by decide) (by decide)
        · exact mock_branch_spec q _ hcur hmem hlen "guard" (by decide) (by decide)
            "patrol" (common_mem_candidates (by decide)) (by decide) (by decide)
        · exact mock_branch_spec q _ hcur hmem hlen "wander" (by decide) (by decide)
            "patrol" (common_mem_candidates (by decide)) (by decide) (by decide)
        · exact mock_branch_spec q _ hcur hmem hlen "idle" (by decide) (by decide)
            "patrol" (common_mem_candidates (by decide)) (by decide) (by decide)
        · exact mock_branch_spec q _ hcur hmem hlen "greet" (by decide) (by decide)
            "patrol" (common_mem_candidates (by decide)) (by decide) (by decide)
        · exact mock_branch_spec q _ hcur hmem hlen "tend" (by decide) (by decide)
            "patrol" (common_mem_candidates (by decide)) (by decide) (by decide)
        · exact mock_branch_spec q _ hcur hmem hlen "rest" (by decide) (by decide)
            "patrol" (common_mem_candidates (by decide)) (by decide) (by decide)
        · exact mock_branch_spec q _ hcur hmem hlen "talk" (by decide) (by decide)
            "patrol" (common_mem_candidates (by decide)) (by decide) (by decide)
        · exact mock_branch_spec q _ hcur hmem hlen "inspect" (by decide) (by decide)
            "patrol" (common_mem_candidates (by decide)) (by decide) (by decide)
        · exact mock_branch_spec q _ hcur hmem hlen "sell" (by decide) (by decide)
            "patrol" (common_mem_candidates (by decide)) (by decide) (by decide)
        · exact mock_branch_spec q _ hcur hmem hlen "manage" (by decide) (by decide)
            "patrol" (common_mem_candidates (by decide)) (by decide) (by decide)
      obtain ⟨pool, h1, h2, h3⟩ := key
      refine ⟨pool, h1, h2, fun t ht => ⟨(h3 t ht).1, ?_⟩⟩
      intro h
      injection h with h
      exact (h3 t ht).2 h.symm
    · refine ⟨mockCandidates q, ?_, List.ne_nil_of_length_pos (by omega), ?_⟩
      · simp only [mockFinalPool, hcur]
        rw [if_neg (fun h => hmem h.1)]
      · intro t ht
        refine ⟨allTasks_ne_empty t (mem_allTasks_of_candidates ht), ?_⟩
        intro h
        injection h with h
        exact hmem (h ▸ ht)

/-- C6 witness: a villager currently patrolling with no player nearby. -/
theorem mock_no_repeat_witness :
    2 ≤ (mockCandidates ⟨some "villager", some "patrol", none⟩).length ∧
    ∃ pool, mockFinalPool ⟨some "villager", some "patrol", none⟩ = some pool ∧
      pool ≠ [] ∧ ∀ t ∈ pool, t ≠ "" ∧
        (⟨some "villager", some "patrol", none⟩ : MockQuery).currentTask ≠ some t :=
  ⟨by decide, mock_no_repeat _ (by decide)⟩

/-- C3: the `waiting_for_task` gate of `NPC.update` — while the flag is set
no tick submits a request, a submission happens only with the flag clear
and sets it, the flag is cleared only by consuming a present cache entry
(which also clears the entry), and along every reachable interleaving of
ticks and worker steps the agent has at most one outstanding directive
(in-flight request or uncollected cache entry). -/
theorem single_outstanding_request :
    (∀ (a : AgentState) (cache : Option String) (now : Nat),
        a.waiting = true → (npcUpdate a cache now).2.2 = false) ∧
    (∀ (a : AgentState) (cache : Option String) (now : Nat),
        (npcUpdate a cache now).2.2 = true →
        a.waiting = false ∧ (npcUpdate a cache now).1.waiting = true) ∧
    (∀ (a : AgentState) (cache : Option String) (now : Nat),
        a.waiting = true → (npcUpdate a cache now).1.waiting = false →
        cache.isSome = true ∧ (npcUpdate a cache now).2.1 = none) ∧
    (∀ s, Reaches s → outstanding s ≤ 1 ∧
        (s.agent.waiting = false → s.inflight = 0 ∧ s.cache = none)) := by
  refine ⟨?_, ?_, ?_, ?_⟩
  · intro a cache now hw
    obtain ⟨w, ct, lu⟩ := a
    simp only at hw
    subst hw
    cases cache <;> simp [npcUpdate]
  · intro a cache now h
    obtain ⟨w, ct, lu⟩ := a
    cases w
    · cases cache <;>
        [skip; skip] <;>
        · simp only [npcUpdate] at h ⊢
          split at h
          · simp_all
          · simp_all
    · exfalso
      cases cache <;> simp [npcUpdate] at h
  · intro a cache now hw h
    obtain ⟨w, ct, lu⟩ := a
    simp only at hw
    subst hw
    cases cache with
    | none => simp [npcUpdate] at h
    | some r => exact ⟨rfl, rfl⟩
  · intro s hs
    induction hs with
    | init => exact ⟨by decide, fun _ => ⟨rfl, rfl⟩⟩
    | step hR hstep ih =>
      cases hstep with
      | tick now =>
        rename_i s
        rcases hcache : s.cache with _ | r
        · rcases hw : s.agent.waiting with _ | _
          · have h0 := (ih.2 hw).1
            by_cases hcond : NPC_UPDATE_INTERVAL ≤ now - s.agent.lastUpdate
            · constructor
              · simp [outstanding, applyTick, npcUpdate, hcache, hw, hcond, h0]
              · intro hW
                simp [applyTick, npcUpdate, hcache, hw, hcond] at hW
            · constructor
              · simpa [outstanding, applyTick, npcUpdate, hcache, hw, hcond] using ih.1
              · intro hW
                simp [applyTick, npcUpdate, hcache, hw, hcond, h0]
          · constructor
            · simpa [outstanding, applyTick, npcUpdate, hcache, hw] using ih.1
            · intro hW
              simp [applyTick, npcUpdate, hcache, hw] at hW
        · rcases hw : s.agent.waiting with _ | _
          · exact absurd (ih.2 hw).2 (by simp [hcache])
          · have h1 : s.inflight = 0 := by
              have := ih.1
              simp [outstanding, hcache] at this
              omega
            constructor
            · simp [outstanding, applyTick, npcUpdate, hcache, hw, h1]
            · intro hW
              simp [applyTick, npcUpdate, hcache, hw, h1]
      | worker r h =>
        rename_i s
        refine ⟨?_, fun hw => absurd (ih.2 hw).1 (by omega)⟩
        have h1 := ih.1
        rcases hcache : s.cache with _ | v <;>
          simp [outstanding, hcache] at h1 ⊢ <;> omega

/-- C3 witness: the invariant instantiated at the initial state. -/
theorem single_outstanding_request_witness :
    outstanding initSys ≤ 1 ∧
      (initSys.agent.waiting = false → initSys.inflight = 0 ∧ initSys.cache = none) :=
  single_outstanding_request.2.2.2 initSys Reaches.init

/-- C4: the single worker drains the FIFO queue front-first, so when every
submitted request carries a callback, the callbacks fire exactly in
submission order. -/
theorem fifo_callback_order (mockFn : MockQuery → String)
    (cache : List (String × String))
    (items : List (PendingRequest × Except String String))
    (hcb : ∀ it ∈ items, it.1.hasCallback = true) :
    callbackOrder (drainQueue mockFn cache items).2 =
      items.map fun it => it.1.npcId := by
  revert hcb
  induction items generalizing cache with
  | nil => intro _; rfl
  | cons hd tl ih =>
    intro hcb
    obtain ⟨req, out⟩ := hd
    have h1 : req.hasCallback = true := hcb _ (List.mem_cons_self _ _)
    have h2 : ∀ it ∈ tl, it.1.hasCallback = true :=
      fun it hit => hcb _ (List.mem_cons_of_mem _ hit)
    simp only [drainQueue]
    rw [callbackOrder_append]
    have hstep : callbackOrder (workerStep mockFn cache req out).2 = [req.npcId] := by
      simp [workerStep, callbackOrder, h1]
    rw [hstep, ih _ h2]
    rfl

/-- C4 witness: requests for agents A, B, C submitted in that order produce
callbacks in that order. -/
theorem fifo_callback_order_witness :
    callbackOrder (drainQueue (fun _ => "idle") []
      (queuePut (queuePut (queuePut []
        (⟨"A", ⟨none, none, none⟩, true⟩, Except.ok "patrol"))
        (⟨"B", ⟨none, none, none⟩, true⟩, Except.ok "wander"))
        (⟨"C", ⟨none, none, none⟩, true⟩, Except.error "timeout"))).2 =
      ["A", "B", "C"] := by
  have h := fifo_callback_order (fun _ => "idle") []
    (queuePut (queuePut (queuePut []
      (⟨"A", ⟨none, none, none⟩, true⟩, Except.ok "patrol"))
      (⟨"B", ⟨none, none, none⟩, true⟩, Except.ok "wander"))
      (⟨"C", ⟨none, none, none⟩, true⟩, Except.error "timeout")) (by decide)
  simpa [queuePut] using h

/-- C5: processing one dequeued request never propagates a failure — the
response is the backend result on success and the mock fallback on error —
and in both cases the worker first writes that response to the agent's
cache slot and then invokes the callback (when provided) with the same
response. -/
theorem worker_fallback_and_order (mockFn : MockQuery → String)
    (cache : List (String × String)) (req : PendingRequest)
    (outcome : Except String String) :
    ∃ r, workerStep mockFn cache req outcome =
        ((req.npcId, r) :: cache,
          Event.cacheWrite req.npcId r ::
            (if req.hasCallback then [Event.callbackCall req.npcId r] else [])) ∧
      (∀ v, outcome = .ok v → r = v) ∧
      (∀ e, outcome = .error e → r = mockFn req.query) := by
  cases outcome with
  | ok v =>
    exact ⟨v, rfl, fun v' h => Except.ok.inj h, fun e h => Except.noConfusion h⟩
  | error e =>
    exact ⟨mockFn req.query, rfl, fun v h => Except.noConfusion h, fun e' _ => rfl⟩

/-- C5 witness: a failed backend call falls back to the mock generator and
the cache write precedes the callback, both carrying the fallback result. -/
theorem worker_fallback_and_order_witness :
    (workerStep (fun _ => "wander") [] ⟨"guard-1", ⟨none, none, none⟩, true⟩
        (Except.error "timeout")).2 =
      [Event.cacheWrite "guard-1" "wander", Event.callbackCall "guard-1" "wander"] := by
  obtain ⟨r, h1, -, h3⟩ := worker_fallback_and_order (fun _ => "wander") []
    ⟨"guard-1", ⟨none, none, none⟩, true⟩ (Except.error "timeout")
  have hr : r = "wander" := h3 "timeout" rfl
  subst hr
  rw [h1]
  rfl

/-- C7: the arrival check of `has_reached_target` is a strict `<` against
the movement speed — at distance exactly `speed` the target is not reached,
one unit closer it is. -/
theorem arrival_strict (s : Steer) (tx ty : ℝ)
    (hx : s.targetX = some tx) (hy : s.targetY = some ty) :
    (Real.sqrt ((tx - s.x) ^ 2 + (ty - s.y) ^ 2) = npcSpeed → ¬ hasReachedTarget s) ∧
    (Real.sqrt ((tx - s.x) ^ 2 + (ty - s.y) ^ 2) = npcSpeed - 1 → hasReachedTarget s) := by
  constructor
  · intro hd hr
    simp only [hasReachedTarget, hx, hy] at hr
    rw [hd] at hr
    exact lt_irrefl _ hr
  · intro hd
    simp only [hasReachedTarget, hx, hy]
    rw [hd]
    norm_num [npcSpeed]

/-- C7 witness: with speed 3, a target at distance 3 is not reached and a
target at distance 2 is. -/
theorem arrival_strict_witness :
    ¬ hasReachedTarget ⟨0, 0, some 3, some 0⟩ ∧
      hasReachedTarget ⟨0, 0, some 2, some 0⟩ := by
  constructor
  · refine (arrival_strict ⟨0, 0, some 3, some 0⟩ 3 0 rfl rfl).1 ?_
    have h9 : ((3 : ℝ) - 0) ^ 2 + ((0 : ℝ) - 0) ^ 2 = 3 ^ 2 := by norm_num
    rw [h9, Real.sqrt_sq (by norm_num : (0 : ℝ) ≤ 3)]
    simp [npcSpeed]
  · refine (arrival_strict ⟨0, 0, some 2, some 0⟩ 2 0 rfl rfl).2 ?_
    have h4 : ((2 : ℝ) - 0) ^ 2 + ((0 : ℝ) - 0) ^ 2 = 2 ^ 2 := by norm_num
    rw [h4, Real.sqrt_sq (by norm_num : (0 : ℝ) ≤ 2)]
    norm_num [npcSpeed]

/-- C8: the directive `"follow_player: stay close"` resolves to the
follow-player behavior for every agent type (the colon-delimited suffix is
ignored), while `"tend crops"` for a guard does not trigger the
villager-only crop behavior and falls through to wander. -/
theorem dispatch_follow_and_guard_crops :
    (∀ npcType : String, executeTask npcType "follow_player: stay close" = .followPlayer) ∧
    executeTask "guard" "tend crops" = .wander :=
  ⟨fun _ => rfl, rfl⟩

/-- C9: a structured tool call with a `task` argument and an optional
`task_description` is formatted as the task with underscores replaced by
spaces, joined with `": <description>"` exactly when a non-empty
description is present. -/
theorem tool_call_format (task : String) (desc? : Option String) :
    (desc?.getD "" ≠ "" →
      responseToTask (.toolCall "assign_task_to_npc" (some task) desc?) =
        underscoreToSpace task ++ ": " ++ desc?.getD "") ∧
    (desc?.getD "" = "" →
      responseToTask (.toolCall "assign_task_to_npc" (some task) desc?) =
        underscoreToSpace task) := by
  constructor <;> intro h <;> simp [responseToTask, h]

/-- C9 witness: `task = "follow_player"` with description `"stay close"`
formats with the separator; `task = "patrol"` without a description keeps
only the task name. -/
theorem tool_call_format_witness :
    responseToTask (.toolCall "assign_task_to_npc" (some "follow_player")
        (some "stay close")) = "follow player: stay close" ∧
    responseToTask (.toolCall "assign_task_to_npc" (some "patrol") none) = "patrol" := by
  constructor
  · exact (tool_call_format "follow_player" (some "stay close")).1 (by decide)
  · exact (tool_call_format "patrol" none).2 rfl

/-- C10: the steering primitives are total at degenerate targets — with a
missing target coordinate `has_reached_target` is true and
`move_toward_target` leaves the state unchanged, and at distance exactly
zero the normalisation is skipped (no division by zero) and the position is
unchanged. -/
theorem steering_degenerate :
    (∀ s : Steer, s.targetX = none ∨ s.targetY = none →
        hasReachedTarget s ∧ moveTowardTarget s = s) ∧
    (∀ (s : Steer) (tx ty : ℝ), s.targetX = some tx → s.targetY = some ty →
        Real.sqrt ((tx - s.x) ^ 2 + (ty - s.y) ^ 2) = 0 →
        (moveTowardTarget s).x = s.x ∧ (moveTowardTarget s).y = s.y) := by
  constructor
  · rintro ⟨x, y, tX, tY⟩ (h | h) <;> subst h
    · cases tY <;> exact ⟨by simp [hasReachedTarget], by simp [moveTowardTarget]⟩
    · cases tX <;> exact ⟨by simp [hasReachedTarget], by simp [moveTowardTarget]⟩
  · intro s tx ty hx hy hdist
    have hnn : 0 ≤ (tx - s.x) ^ 2 + (ty - s.y) ^ 2 := by positivity
    have h0 : (tx - s.x) ^ 2 + (ty - s.y) ^ 2 = 0 := by
      have hle := Real.sqrt_eq_zero'.mp hdist
      linarith
    have hdx : tx - s.x = 0 := by nlinarith [sq_nonneg (tx - s.x), sq_nonneg (ty - s.y)]
    have hdy : ty - s.y = 0 := by nlinarith [sq_nonneg (tx - s.x), sq_nonneg (ty - s.y)]
    constructor <;> simp [moveTowardTarget, hx, hy, hdist, hdx, hdy]

/-- C10 witness: a missing x-target leaves the agent in place and counts as
reached; a target equal to the current position moves nothing. -/
theorem steering_degenerate_witness :
    (hasReachedTarget ⟨1, 2, none, some 5⟩ ∧
      moveTowardTarget ⟨1, 2, none, some 5⟩ = ⟨1, 2, none, some 5⟩) ∧
    ((moveTowardTarget ⟨1, 2, some 1, some 2⟩).x = 1 ∧
      (moveTowardTarget ⟨1, 2, some 1, some 2⟩).y = 2) := by
  constructor
  · exact steering_degenerate.1 ⟨1, 2, none, some 5⟩ (Or.inl rfl)
  · exact steering_degenerate.2 ⟨1, 2, some 1, some 2⟩ 1 2 rfl rfl
      (by norm_num [Real.sqrt_zero])

end AiNpc
